import Mathlib

/-!
Verification development for the lighter templating/reactive-binding engine.

The JavaScript sources are shallowly embedded: strings are lists of
characters (`JStr`), JavaScript values are the inductive `JSValue`
(objects as association lists), fallible operations return `Except`,
and the regular expressions of the source are translated into explicit
character scanners.  Recursive scanners use an explicit fuel argument
(always instantiated with the input length, which is provably enough)
so that every definition is executable by kernel reduction.
-/

/-- Model of a JavaScript string: the list of its characters. -/
abbrev JStr := List Char

/-- Character class of `lighter.ExpressionCompiler.FIRST_LEVEL`,
the regex `[a-zA-Z$_:]`. -/
def firstLevelChar (c : Char) : Bool :=
  decide ('a' ≤ c ∧ c ≤ 'z') || decide ('A' ≤ c ∧ c ≤ 'Z') ||
  decide (c = '$') || decide (c = '_') || decide (c = ':')

/-- Character class of the bracketed alternative of
`lighter.ExpressionCompiler.DEEPER_LEVEL`, the regex `[a-zA-Z$_.:]`. -/
def bracketChar (c : Char) : Bool :=
  firstLevelChar c || decide (c = '.')

/-- Character class of the regex `\d`. -/
def digitChar (c : Char) : Bool :=
  decide ('0' ≤ c ∧ c ≤ '9')

/-- Character class of the regex `\s` (ASCII whitespace as used by the
expressions of this code base). -/
def wsChar (c : Char) : Bool :=
  decide (c = ' ') || decide (c = '\t') || decide (c = '\n') ||
  decide (c = '\r') || decide (c = Char.ofNat 0x0b) || decide (c = Char.ofNat 0x0c)

/-- Model of a JavaScript value as the expression compiler observes it:
`undef` is `undefined`, `obj` is an object given by its (ordered) own
properties.  Functions, arrays and host objects are outside the universe;
the claims under verification never need them as expression values. -/
inductive JSValue : Type where
  | undef : JSValue
  | null : JSValue
  | bool : Bool → JSValue
  | num : Int → JSValue
  | str : JStr → JSValue
  | obj : List (JStr × JSValue) → JSValue
deriving Repr

/-- JavaScript truthiness (`Boolean(v)`) on the modelled universe. -/
def truthy : JSValue → Bool
  | .undef => false
  | .null => false
  | .bool b => b
  | .num n => decide (n ≠ 0)
  | .str s => decide (s ≠ [])
  | .obj _ => true

/-- JavaScript `ToString` on the modelled universe, used when a value is
employed as a property key (`value[level]`). -/
def toKey : JSValue → JStr
  | .undef => ("undefined").data
  | .null => ("null").data
  | .bool b => if b then ("true").data else ("false").data
  | .num n => (toString n).data
  | .str s => s
  | .obj _ => ("[object Object]").data

/-- Looks a key up in an object's property list (first binding wins,
as keys are unique in a JavaScript object). -/
def fieldsGet (fields : List (JStr × JSValue)) (k : JStr) : Option JSValue :=
  match fields with
  | [] => none
  | (k0, v0) :: rest => if k0 = k then some v0 else fieldsGet rest k

/-- Sets a key in an object's property list, updating it in place when it
exists and appending it otherwise (JavaScript property-assignment order). -/
def fieldsSet (fields : List (JStr × JSValue)) (k : JStr) (v : JSValue) :
    List (JStr × JSValue) :=
  match fields with
  | [] => [ (k, v) ]
  | (k0, v0) :: rest =>
    if k0 = k then (k0, v) :: rest else (k0, v0) :: fieldsSet rest k v

/-- Property read `value[key]`: `undefined` off objects and for missing
keys (primitives of the modelled universe carry no readable properties). -/
def jsIndex (v : JSValue) (key : JSValue) : JSValue :=
  match v with
  | .obj fields => (fieldsGet fields (toKey key)).getD .undef
  | _ => (.undef)

/-- Decides whether a value is `undefined` (the `typeof x === 'undefined'`
test of the source). -/
def isUndef : JSValue → Bool
  | .undef => true
  | _ => false

/-- Decides whether a value is `null` (the `x === null` test of the
source). -/
def isNull : JSValue → Bool
  | .null => true
  | _ => false

/-! ### lighter.ExpressionCompiler.parseLevels / get / set -/

/-- One deeper-level segment as matched by the regex
`lighter.ExpressionCompiler.DEEPER_LEVEL`:
either `.name` or `[inner]`. -/
inductive PSeg : Type where
  | dot : JStr → PSeg
  | bracket : JStr → PSeg
deriving Repr, DecidableEq

/-- First match of the unanchored regex `FIRST_LEVEL` (`[a-zA-Z$_:]+`):
the first maximal run of first-level characters, or `[]` when the regex
does not match (the source then pushes the empty string). -/
def firstRun : JStr → JStr
  | [] => []
  | c :: rest =>
    if firstLevelChar c then c :: rest.takeWhile firstLevelChar else firstRun rest

/-- Global scan of the regex `DEEPER_LEVELS`
(`\[[a-zA-Z$_.:]+\]|\.[a-zA-Z$_:]+`, flag `g`): successive non-overlapping
matches, scanning left to right, advancing one character on failure.
The fuel argument only bounds the recursion; `s.length` is always enough
because every step consumes at least one character. -/
def scanDeeperF : Nat → JStr → List PSeg
  | 0, _ => []
  | _ + 1, [] => []
  | f + 1, c :: rest =>
    if c = '.' then
      let name := rest.takeWhile firstLevelChar
      if name = [] then scanDeeperF f rest
      else PSeg.dot name :: scanDeeperF f (rest.drop name.length)
    else if c = '[' then
      let inner := rest.takeWhile bracketChar
      match rest.drop inner.length with
      | ']' :: after =>
        if inner = [] then scanDeeperF f rest
        else PSeg.bracket inner :: scanDeeperF f after
      | _ => scanDeeperF f rest
    else scanDeeperF f rest

/-- Entry point of the deeper-level scan with its canonical fuel. -/
def scanDeeper (s : JStr) : List PSeg :=
  scanDeeperF s.length s

/-- Decides whether an expression matches `STRING_EXPRESSION`
(`^(['"])(.*)\1$`): at least two characters, identical first and last
quote characters, and no line terminator in between (`.` does not match
line terminators). -/
def stringLitMatch (s : JStr) : Option JStr :=
  match s with
  | c :: rest =>
    if (c = '\'' ∨ c = '"') ∧ rest ≠ [] ∧ rest.getLast? = some c ∧
        (rest.dropLast.all fun x =>
          x ≠ '\n' ∧ x ≠ '\r' ∧ x ≠ Char.ofNat 0x2028 ∧ x ≠ Char.ofNat 0x2029) then
      some rest.dropLast
    else none
  | [] => none

/-- Decides the `/^\d+$/` test of `lighter.ExpressionCompiler.get`. -/
def allDigits (s : JStr) : Bool :=
  decide (s ≠ []) && s.all digitChar

/-- Numeric value of an all-digit string (`Number(exp)` in the source). -/
def digitsToNat (s : JStr) : Nat :=
  s.foldl (fun acc c => 10 * acc + (Char.toNat c - Char.toNat '0')) 0

/-- The `levels.some(...)` walk of `lighter.ExpressionCompiler.get`:
stops with `undefined` as soon as the current value is `null`, the level
key is `undefined` or `null`, or indexing yields `undefined`. -/
def walkLevels : JSValue → List JSValue → JSValue
  | v, [] => v
  | v, l :: rest =>
    if isNull v ∨ isNull l ∨ isUndef l ∨ isUndef (jsIndex v l) then .undef
    else walkLevels (jsIndex v l) rest

/-- Fueled `lighter.ExpressionCompiler.get`.  In the source `get` and
`parseLevels` are mutually recursive (a bracketed segment is itself
evaluated as a getter expression); here the level parsing is inlined into
`getF` so the recursion is structural on the fuel, and `levelsF` below
restates the parsing step verbatim (it is definitionally the inlined
block).  A fuel of `exp.length + 1` always suffices: every bracketed
sub-expression is a strict substring of the expression it occurs in. -/
def getF : Nat → JStr → JSValue → JSValue
  | 0, _, _ => .undef
  | f + 1, exp, scope =>
    match stringLitMatch exp with
    | some lit => .str lit
    | none =>
      if allDigits exp then .num (digitsToNat exp)
      else
        let fst := firstRun exp
        let rest := exp.drop fst.length
        walkLevels scope
          (JSValue.str fst ::
            (if rest = [] then []
             else (scanDeeper rest).map fun seg =>
               match seg with
               | .dot n => JSValue.str n
               | .bracket inner => getF f inner scope))

/-- Fueled `lighter.ExpressionCompiler.parseLevels`: the first-level match
(pushed even when empty), then—when the remaining string is non-empty—the
deeper-level matches, each bracketed segment recursively evaluated as a
getter expression against the same scope. -/
def levelsF (f : Nat) (exp : JStr) (scope : JSValue) : List JSValue :=
  let fst := firstRun exp
  let rest := exp.drop fst.length
  JSValue.str fst ::
    (if rest = [] then []
     else (scanDeeper rest).map fun seg =>
       match seg with
       | .dot n => JSValue.str n
       | .bracket inner => getF f inner scope)

/-- Embedding of `lighter.ExpressionCompiler.parseLevels`. -/
def parseLevels (exp : JStr) (scope : JSValue) : List JSValue :=
  levelsF exp.length exp scope

/-- Embedding of `lighter.ExpressionCompiler.get`. -/
def evaluateGetter (exp : JStr) (scope : JSValue) : JSValue :=
  getF (exp.length + 1) exp scope

/-- The `levels.some(...)` walk of `lighter.ExpressionCompiler.set`,
returning the updated target.  In the source the target is mutated; here
the update is threaded functionally, which coincides because the level
keys were all computed before the walk starts.  `error` marks the strict
mode `TypeError` raised by a property write on a primitive value. -/
def setWalk (target : JSValue) (levels : List JSValue) (v : JSValue) :
    Except Unit JSValue :=
  match levels with
  | [] => .ok target
  | [l] =>
    if isUndef l then .ok target
    else
      match target with
      | .obj fields => .ok (.obj (fieldsSet fields (toKey l) v))
      | _ => .error ()
  | l :: rest =>
    if isUndef l then .ok target
    else
      match target with
      | .obj fields =>
        let cur := (fieldsGet fields (toKey l)).getD .undef
        let child := if truthy cur then cur else JSValue.obj []
        match setWalk child rest v with
        | .ok child2 => .ok (.obj (fieldsSet fields (toKey l) child2))
        | .error e => .error e
      | _ => .error ()

/-- Embedding of `lighter.ExpressionCompiler.set` (called `assign` by the
specification): parse the levels against the scope, then walk all but the
last level, auto-vivifying empty objects over falsy intermediate values,
and assign at the final level. -/
def assign (exp : JStr) (v : JSValue) (scope : JSValue) : Except Unit JSValue :=
  setWalk scope (parseLevels exp scope) v

/-! ### Getter-path grammar and resolution specification -/

/-- Rendering of a deeper-level segment back to its concrete syntax. -/
def renderSeg : PSeg → JStr
  | .dot n => '.' :: n
  | .bracket i => '[' :: i ++ [ ']' ]

/-- Rendering of a full getter path: first-level identifier followed by
deeper-level segments. -/
def renderPath (fst : JStr) (segs : List PSeg) : JStr :=
  fst ++ segs.flatMap renderSeg

/-- Well-formedness of one deeper-level segment per the getter grammar. -/
def wfSeg : PSeg → Bool
  | .dot n => decide (n ≠ []) && n.all firstLevelChar
  | .bracket i => decide (i ≠ []) && i.all bracketChar

/-- An expression is a getter path: a non-empty first-level identifier
(`[a-zA-Z$_:]+`) followed by zero or more well-formed deeper-level
segments.  This is the grammar `GETTER_EXPRESSION` of the source, matched
against the whole string. -/
def IsGetterPath (exp : JStr) : Prop :=
  ∃ fst segs, fst ≠ [] ∧ fst.all firstLevelChar = true ∧
    segs.all wfSeg = true ∧ exp = renderPath fst segs

/-- Resolution of a level list as the specification words it: descend key
by key; the resolution is `none` (overall result `undefined`) as soon as
a level key is `undefined`/`null` or the current value lacks that key. -/
def specResolve : JSValue → List JSValue → Option JSValue
  | v, [] => some v
  | v, l :: rest =>
    if isUndef l ∨ isNull l ∨ isUndef (jsIndex v l) then none
    else specResolve (jsIndex v l) rest

lemma jsIndex_null (l : JSValue) : jsIndex .null l = .undef := rfl

lemma walkLevels_specResolve (ls : List JSValue) (v : JSValue) :
    walkLevels v ls = (specResolve v ls).getD .undef := by
  induction ls generalizing v with
  | nil => rfl
  | cons l rest ih =>
    by_cases hv : isNull v = true
    · have hveq : v = .null := by cases v <;> simp_all [isNull]
      subst hveq
      simp [walkLevels, specResolve, jsIndex_null, isUndef]
    · have hguard : ((isNull v = true) ∨ (isNull l = true) ∨ (isUndef l = true) ∨
          (isUndef (jsIndex v l) = true)) ↔
          ((isUndef l = true) ∨ (isNull l = true) ∨ (isUndef (jsIndex v l) = true)) := by
        constructor
        · rintro (h | h | h | h) <;> tauto
        · rintro (h | h | h) <;> tauto
      by_cases hg : (isUndef l = true) ∨ (isNull l = true) ∨ (isUndef (jsIndex v l) = true)
      · rw [walkLevels, specResolve, if_pos (hguard.mpr hg), if_pos hg]
        rfl
      · rw [walkLevels, specResolve, if_neg (fun h => hg (hguard.mp h)), if_neg hg]
        exact ih _

lemma isGetterPath_head {exp : JStr} (h : IsGetterPath exp) :
    ∃ c rest, exp = c :: rest ∧ firstLevelChar c = true := by
  obtain ⟨fst, segs, hne, hall, _, rfl⟩ := h
  cases fst with
  | nil => exact absurd rfl hne
  | cons c tl =>
    refine ⟨c, tl ++ segs.flatMap renderSeg, rfl, ?_⟩
    simp only [List.all_cons, Bool.and_eq_true] at hall
    exact hall.1

lemma stringLitMatch_of_firstLevel {c : Char} (hc : firstLevelChar c = true)
    (rest : JStr) : stringLitMatch (c :: rest) = none := by
  have hq : ¬ (c = '\'' ∨ c = '"') := by
    rintro (rfl | rfl) <;> exact absurd hc (by decide)
  simp [stringLitMatch, hq]

lemma allDigits_of_firstLevel {c : Char} (hc : firstLevelChar c = true)
    (rest : JStr) : allDigits (c :: rest) = false := by
  have hd : digitChar c = false := by
    simp only [firstLevelChar, Bool.or_eq_true, decide_eq_true_eq] at hc
    simp only [digitChar, decide_eq_false_iff_not]
    rintro ⟨h0, h9⟩
    rcases hc with ((((⟨ha, _⟩ | ⟨hA, _⟩) | rfl) | rfl) | rfl)
    · exact absurd (le_trans ha h9) (by decide)
    · exact absurd (le_trans hA h9) (by decide)
    · exact absurd h0 (by decide)
    · exact absurd h9 (by decide)
    · exact absurd h9 (by decide)
  simp [allDigits, hd]

lemma evaluateGetter_path {exp : JStr} (scope : JSValue) (h : IsGetterPath exp) :
    evaluateGetter exp scope = walkLevels scope (parseLevels exp scope) := by
  obtain ⟨c, rest, rfl, hc⟩ := isGetterPath_head h
  rw [evaluateGetter, getF, stringLitMatch_of_firstLevel hc,
    allDigits_of_firstLevel hc]
  rfl

lemma fieldsGet_fieldsSet (fields : List (JStr × JSValue)) (k : JStr) (v : JSValue) :
    fieldsGet (fieldsSet fields k v) k = some v := by
  induction fields with
  | nil => simp [fieldsSet, fieldsGet]
  | cons kv rest ih =>
    obtain ⟨k0, v0⟩ := kv
    by_cases h : k0 = k
    · simp [fieldsSet, fieldsGet, h]
    · simp [fieldsSet, fieldsGet, h, ih]

lemma setWalk_ok_isObj {l : JSValue} {rest : List JSValue} {target t2 v : JSValue}
    (hl : isUndef l = false) (h : setWalk target (l :: rest) v = .ok t2) :
    ∃ flds, t2 = JSValue.obj flds := by
  cases rest with
  | nil =>
    cases target <;> simp [setWalk, hl] at h
    case obj fields => exact ⟨_, h.symm⟩
  | cons l2 rest2 =>
    cases target <;> simp [setWalk, hl] at h
    case obj fields =>
      split at h
      · simp only [Except.ok.injEq] at h
        exact ⟨_, h.symm⟩
      · exact absurd h (by simp)

lemma setWalk_walkLevels :
    ∀ (levels : List JSValue) (target t2 v : JSValue), levels ≠ [] →
    (∀ l ∈ levels, isUndef l = false ∧ isNull l = false) →
    setWalk target levels v = .ok t2 →
    walkLevels t2 levels = v := by
  intro levels
  induction levels with
  | nil => intro _ _ _ hne; exact absurd rfl hne
  | cons l rest ih =>
    intro target t2 v _ hl hok
    have hl0 := hl l (List.mem_cons_self l rest)
    cases rest with
    | nil =>
      cases target <;> simp [setWalk, hl0.1] at hok
      case obj fields =>
        subst hok
        rw [walkLevels]
        have hidx : jsIndex (.obj (fieldsSet fields (toKey l) v)) l = v := by
          simp [jsIndex, fieldsGet_fieldsSet]
        by_cases hv : isUndef v = true
        · have : v = .undef := by cases v <;> simp_all [isUndef]
          subst this
          rw [if_pos]
          right; right; right; rw [hidx]; rfl
        · rw [if_neg, hidx]
          · rfl
          · rintro (hbad | hbad | hbad | hbad)
            · exact absurd hbad (by simp [isNull])
            · exact absurd hbad (by simp [hl0.2])
            · exact absurd hbad (by simp [hl0.1])
            · rw [hidx] at hbad; exact absurd hbad (by simp [hv])
    | cons l2 rest2 =>
      cases target <;> simp [setWalk, hl0.1] at hok
      case obj fields =>
        split at hok
        case h_2 => exact absurd hok (by simp)
        case h_1 child2 hrec =>
          simp only [Except.ok.injEq] at hok
          subst hok
          have hrest : ∀ x ∈ l2 :: rest2, isUndef x = false ∧ isNull x = false :=
            fun x hx => hl x (List.mem_cons_of_mem l hx)
          have hobj := setWalk_ok_isObj (hrest l2 (List.mem_cons_self l2 rest2)).1 hrec
          obtain ⟨flds2, rfl⟩ := hobj
          have hidx : jsIndex (.obj (fieldsSet fields (toKey l) (.obj flds2))) l =
              .obj flds2 := by
            simp [jsIndex, fieldsGet_fieldsSet]
          rw [walkLevels, if_neg, hidx]
          · exact ih _ _ _ (by simp) hrest hrec
          · rintro (hbad | hbad | hbad | hbad)
            · exact absurd hbad (by simp [isNull])
            · exact absurd hbad (by simp [hl0.2])
            · exact absurd hbad (by simp [hl0.1])
            · rw [hidx] at hbad; exact absurd hbad (by simp [isUndef])

lemma parseLevels_ne_nil (exp : JStr) (scope : JSValue) :
    parseLevels exp scope ≠ [] := by
  simp [parseLevels, levelsF]

/-- C3: for every getter path expression and every scope, when every path
segment resolves, `evaluateGetter` (the embedding of
`lighter.ExpressionCompiler.get`) returns the exact nested value, and when
any segment is absent (the level key is `undefined`/`null`, or the current
value lacks that key) it returns `undefined`; being a total function of
the embedding, it never throws for missing intermediate properties. -/
theorem C3_evaluateGetter_resolution (exp : JStr) (scope : JSValue)
    (h : IsGetterPath exp) :
    (∀ v, specResolve scope (parseLevels exp scope) = some v →
      evaluateGetter exp scope = v) ∧
    (specResolve scope (parseLevels exp scope) = none →
      evaluateGetter exp scope = .undef) := by
  constructor
  · intro v hv
    rw [evaluateGetter_path scope h, walkLevels_specResolve, hv]
    rfl
  · intro hn
    rw [evaluateGetter_path scope h, walkLevels_specResolve, hn]
    rfl

/-- Witness for C3 at the path `a.b` on a scope where `a.b = 5` (fully
resolving) and at `a.c` on the same scope (absent segment). -/
theorem C3_evaluateGetter_resolution_witness :
    evaluateGetter [ 'a', '.', 'b' ]
      (.obj [([ 'a' ], .obj [([ 'b' ], .num 5)])]) = .num 5 ∧
    evaluateGetter [ 'a', '.', 'c' ]
      (.obj [([ 'a' ], .obj [([ 'b' ], .num 5)])]) = .undef :=
  ⟨(C3_evaluateGetter_resolution [ 'a', '.', 'b' ]
      (.obj [([ 'a' ], .obj [([ 'b' ], .num 5)])])
      ⟨[ 'a' ], [ PSeg.dot [ 'b' ] ], by decide, by decide, by decide, rfl⟩).1
      (.num 5) rfl,
   (C3_evaluateGetter_resolution [ 'a', '.', 'c' ]
      (.obj [([ 'a' ], .obj [([ 'b' ], .num 5)])])
      ⟨[ 'a' ], [ PSeg.dot [ 'c' ] ], by decide, by decide, by decide, rfl⟩).2
      rfl⟩

/-- C4 counterexample: the path `a[k]` contains no dynamic bracket segment
resolving to `undefined` — `k` resolves to `null` — and the assignment
succeeds (writing under the coerced key `"null"`), yet reading the path
back yields `undefined`, not the assigned value, because `get` stops on a
`null` level key. -/
theorem C4_assign_counterexample :
    evaluateGetter [ 'k' ] (.obj [([ 'k' ], .null), ([ 'a' ], .obj [])]) = .null ∧
    assign [ 'a', '[', 'k', ']' ] (.num 1)
      (.obj [([ 'k' ], .null), ([ 'a' ], .obj [])]) =
      .ok (.obj [([ 'k' ], .null),
        ([ 'a' ], .obj [([ 'n', 'u', 'l', 'l' ], .num 1)])]) ∧
    evaluateGetter [ 'a', '[', 'k', ']' ]
      (.obj [([ 'k' ], .null),
        ([ 'a' ], .obj [([ 'n', 'u', 'l', 'l' ], .num 1)])]) = .undef ∧
    JSValue.undef ≠ JSValue.num 1 :=
  ⟨rfl, rfl, rfl, fun h => JSValue.noConfusion h⟩

/-- C4 amended: for every getter path whose computed level keys are all
defined and non-null, every value and every scope, if the assignment
succeeds (the source throws a `TypeError` when a truthy primitive occurs
strictly before the final segment) and the levels parse identically
against the updated scope (which holds whenever no dynamic bracket reads a
location the assignment modified), then `assign` followed by
`evaluateGetter` returns the assigned value; missing intermediate levels
are auto-vivified as empty objects. -/
theorem C4_assign_evaluateGetter (exp : JStr) (scope scope2 v : JSValue)
    (hp : IsGetterPath exp)
    (hl : ∀ l ∈ parseLevels exp scope, isUndef l = false ∧ isNull l = false)
    (hok : assign exp v scope = .ok scope2)
    (hstable : parseLevels exp scope2 = parseLevels exp scope) :
    evaluateGetter exp scope2 = v := by
  rw [evaluateGetter_path scope2 hp, hstable]
  exact setWalk_walkLevels _ _ _ _ (parseLevels_ne_nil exp scope) hl hok

/-- Witness for C4 at the path `x.y` assigned over an empty scope: both
intermediate vivification and the readback are exercised. -/
theorem C4_assign_evaluateGetter_witness :
    assign [ 'x', '.', 'y' ] (.num 7) (.obj []) =
      .ok (.obj [([ 'x' ], .obj [([ 'y' ], .num 7)])]) ∧
    evaluateGetter [ 'x', '.', 'y' ]
      (.obj [([ 'x' ], .obj [([ 'y' ], .num 7)])]) = .num 7 :=
  ⟨rfl, C4_assign_evaluateGetter [ 'x', '.', 'y' ] (.obj []) _ (.num 7)
    ⟨[ 'x' ], [ PSeg.dot [ 'y' ] ], by decide, by decide, by decide, rfl⟩
    (by decide) rfl rfl⟩

/-! ### lighter.ExpressionCompiler.compile (parse phase) -/

/-- Drops trailing whitespace (the characters a trailing `\s*` would
absorb from a lazy or greedy group). -/
def dropTrailWs (s : JStr) : JStr :=
  (s.reverse.dropWhile wsChar).reverse

/-- The three capture groups of the regex
`EXPRESSION = ^(?:([^=]+?)\s*=)?\s*([^(|=\s](?:[^(|=]*[^(|=\s])?)(\([^)]*\))?$`. -/
structure ExprParts : Type where
  setter : Option JStr
  getter : JStr
  exec : Option JStr
deriving Repr, DecidableEq

/-- Matches `\s*([^(|=\s](?:[^(|=]*[^(|=\s])?)(\([^)]*\))?$` against a
string from which leading whitespace has already been removed, returning
the getter group and the optional execution group.  The alternatives the
regex engine would try by backtracking are accounted for: the getter
group is the greedy run over `[^(|=]` with trailing whitespace given
back, and the execution group can only start at the character that
stopped the run, so it must be a parenthesised block without an inner
closing parenthesis that reaches the end of the string. -/
def restMatch (r : JStr) : Option (JStr × Option JStr) :=
  match r with
  | [] => none
  | c0 :: rest =>
    if c0 = '(' ∨ c0 = '|' ∨ c0 = '=' ∨ wsChar c0 = true then none
    else
      let run := rest.takeWhile fun c => ¬(c = '(' ∨ c = '|' ∨ c = '=')
      let g2 := c0 :: dropTrailWs run
      let after := (c0 :: rest).drop g2.length
      if after = [] then some (g2, none)
      else
        match after with
        | '(' :: mid =>
          if mid ≠ [] ∧ mid.getLast? = some ')' ∧ mid.dropLast.all (· ≠ ')') then
            some (g2, some after)
          else none
        | _ => none

/-- Deterministic account of matching the anchored regex `EXPRESSION`.
The optional setter group `([^=]+?)\s*=` can only consume up to the first
`=` of the string (its character class excludes `=`), taking the shortest
prefix whose remainder up to that `=` is whitespace; if the rest of the
regex then fails, the engine backtracks to an empty setter group and the
whole string must match the getter/execution part. -/
def matchEXPR (s : JStr) : Option ExprParts :=
  let fallback : Option ExprParts :=
    match restMatch (s.dropWhile wsChar) with
    | some (g2, ex) => some ⟨none, g2, ex⟩
    | none => none
  match s.findIdx? (· = '=') with
  | none => fallback
  | some j =>
    if j = 0 then fallback
    else
      let pre := s.take j
      let g1raw := dropTrailWs pre
      let g1 := if g1raw = [] then pre.take 1 else g1raw
      match restMatch ((s.drop (j + 1)).dropWhile wsChar) with
      | some (g2, ex) => some ⟨some g1, g2, ex⟩
      | none => fallback

/-- Parse phase of `lighter.ExpressionCompiler.compile`: fails when the
expression does not match `EXPRESSION`; when a setter group is present it
additionally fails when the group does not match the unanchored
`GETTER_EXPRESSION` regex, which succeeds as soon as any character of the
group belongs to the first-level class.  On success the source returns an
evaluator closure over the matched parts without throwing. -/
def compileParse (s : JStr) : Except Unit ExprParts :=
  match matchEXPR s with
  | none => .error ()
  | some parts =>
    match parts.setter with
    | some g1 => if g1.any firstLevelChar then .ok parts else .error ()
    | none => .ok parts

/-- C5 counterexample: `"0a = b"` matches the `EXPRESSION` grammar with
setter group `"0a"`, which is not a valid getter path (it starts with a
digit), yet `compile` does not throw: the left-hand-side check uses the
unanchored `GETTER_EXPRESSION` regex, which already succeeds on the inner
substring `"a"`. -/
theorem C5_compile_counterexample :
    compileParse [ '0', 'a', ' ', '=', ' ', 'b' ] =
      .ok ⟨some [ '0', 'a' ], [ 'b' ], none⟩ ∧
    ¬ IsGetterPath [ '0', 'a' ] := by
  refine ⟨rfl, fun h => ?_⟩
  obtain ⟨c, rest, heq, hc⟩ := isGetterPath_head h
  cases heq
  exact absurd hc (by decide)

/-- C5 amended: `compile` throws a parse error exactly when the expression
does not match the `EXPRESSION` grammar, or when a setter prefix is
present and its left-hand side contains no character of the first-level
identifier class (the unanchored getter-expression check); every other
expression yields the parsed parts (an evaluator) without throwing. -/
theorem C5_compile_throws_iff (s : JStr) :
    compileParse s = .error () ↔
      (matchEXPR s = none ∨
       ∃ parts g1, matchEXPR s = some parts ∧ parts.setter = some g1 ∧
         g1.any firstLevelChar = false) := by
  unfold compileParse
  cases h : matchEXPR s with
  | none => simp
  | some parts =>
    cases hs : parts.setter with
    | none => simp [hs]
    | some g1 =>
      by_cases hg : g1.any firstLevelChar = true
      · simp [hs, hg]
        exact List.any_eq_true.mp hg
      · simp only [Bool.not_eq_true] at hg
        simp [hs, hg]
        exact fun x hx => Bool.eq_false_iff.mpr (List.any_eq_false.mp hg x hx)

/-! ### lighter.events.EventEmitter -/

/-- Behaviour of a listener when invoked, as far as `emit` can observe it:
it either just returns (`pure`), or re-subscribes itself on the same
emitter and event type with the given one-shot flag before returning
(`resub`).  The Boolean records whether the listener returns the exact
value `false` (the only return value `emit` inspects). -/
inductive LAction : Type where
  | pure : Bool → LAction
  | resub : Bool → Bool → LAction
deriving Repr, DecidableEq

/-- One entry of the listener registry (`{listener, ctx, once}` in the
source; the context object plays no role in `emit`'s control flow). -/
structure EItem : Type where
  id : Nat
  act : LAction
  once : Bool
deriving Repr, DecidableEq

/-- Whether the listener's invocation returns the boolean `false`. -/
def actionReturnsFalse : LAction → Bool
  | .pure r => r
  | .resub _ r => r

/-- Registry entries appended by a listener's invocation: a re-subscribing
listener pushes itself (via `on`) onto the current registry array. -/
def resubOf (item : EItem) : List EItem :=
  match item.act with
  | .pure _ => []
  | .resub onceFlag _ => [ ⟨item.id, item.act, onceFlag⟩ ]

/-- The call loop of `EventEmitter.prototype.emit` over the snapshot taken
at the start: each listener is invoked (possibly growing the live
registry), and the loop breaks as soon as a listener returns `false`. -/
def emitLoop : List EItem → List EItem → List Nat → List EItem × List Nat
  | [], registry, log => (registry, log)
  | item :: rest, registry, log =>
    let registry2 := registry ++ resubOf item
    let log2 := log ++ [ item.id ]
    if actionReturnsFalse item.act then (registry2, log2)
    else emitLoop rest registry2 log2

/-- Embedding of `EventEmitter.prototype.emit` for one event type: the
one-shot listeners are removed from the registry first, then the full
original snapshot is invoked.  Returns the final registry and the ordered
log of invoked listener identities. -/
def emit (listeners : List EItem) : List EItem × List Nat :=
  emitLoop listeners (listeners.filter fun item => !item.once) []

/-- The listeners of a snapshot that actually get invoked: the prefix up
to and including the first one returning `false`. -/
def calledItems : List EItem → List EItem
  | [] => []
  | item :: rest =>
    item :: (if actionReturnsFalse item.act then [] else calledItems rest)

/-- Invocation log predicted by the specification: subscription order,
short-circuited after a listener returns `false`. -/
def specLog (items : List EItem) : List Nat :=
  (calledItems items).map EItem.id

/-- Registry entries appended during the emission by re-subscribing
listeners, in call order. -/
def resubs (items : List EItem) : List EItem :=
  (calledItems items).flatMap resubOf

lemma emitLoop_spec (items : List EItem) :
    ∀ (registry : List EItem) (log : List Nat),
    emitLoop items registry log = (registry ++ resubs items, log ++ specLog items) := by
  induction items with
  | nil => intro registry log; simp [emitLoop, resubs, specLog, calledItems]
  | cons item rest ih =>
    intro registry log
    by_cases hf : actionReturnsFalse item.act = true
    · simp [emitLoop, hf, resubs, specLog, calledItems]
    · simp only [Bool.not_eq_true] at hf
      simp [emitLoop, hf, resubs, specLog, calledItems, ih,
        List.append_assoc]

lemma calledItems_sublist (items : List EItem) :
    (calledItems items).Sublist items := by
  induction items with
  | nil => simp [calledItems]
  | cons item rest ih =>
    by_cases hf : actionReturnsFalse item.act = true
    · simp [calledItems, hf]
    · simp only [Bool.not_eq_true] at hf
      simp only [calledItems, hf, Bool.false_eq_true, if_false]
      exact (ih).cons₂ item

/-- C7: for every `emit` of an event type, one-shot listeners are removed
from the registry before any listener runs (so entries added during the
emission — including a one-shot listener re-subscribing itself — survive
as the appended `resubs`), the snapshot taken at the start is invoked in
subscription order, the rest of the snapshot is skipped as soon as a
listener returns the boolean `false`, and with distinct listener
identities every invoked listener — in particular a re-subscribing
one-shot listener — fires exactly once in that emission. -/
theorem C7_emit_once_snapshot_shortcircuit (items : List EItem) :
    emit items =
      (items.filter (fun item => !item.once) ++ resubs items, specLog items) ∧
    ((items.map EItem.id).Nodup →
      ∀ item ∈ calledItems items, (specLog items).count item.id = 1) := by
  constructor
  · rw [emit, emitLoop_spec]
    simp
  · intro hnodup item hmem
    have hsub : (specLog items).Sublist (items.map EItem.id) :=
      (calledItems_sublist items).map EItem.id
    have hnd : (specLog items).Nodup := hnodup.sublist hsub
    have hin : item.id ∈ specLog items :=
      List.mem_map_of_mem EItem.id hmem
    exact List.count_eq_one_of_mem hnd hin

/-- Witness for C7: a single one-shot listener that re-subscribes itself
(one-shot again) during its invocation fires exactly once and ends up
subscribed exactly once afterwards. -/
theorem C7_emit_once_snapshot_shortcircuit_witness :
    emit [ ⟨0, .resub true false, true⟩ ] =
      ([ ⟨0, .resub true false, true⟩ ], [ 0 ]) ∧
    (specLog [ ⟨0, .resub true false, true⟩ ]).count 0 = 1 :=
  ⟨((C7_emit_once_snapshot_shortcircuit [ ⟨0, .resub true false, true⟩ ]).1).trans rfl,
   (C7_emit_once_snapshot_shortcircuit [ ⟨0, .resub true false, true⟩ ]).2
     (by decide) ⟨0, .resub true false, true⟩ (by decide)⟩

/-! ### lighter.Scope and lighter.scope (prototype chain) -/

/-- A scope object: its own properties plus, for a scope created with a
parent, the prototype link installed by `Object.create(parent)`. -/
inductive ScopeRec : Type where
  | root : List (JStr × JSValue) → ScopeRec
  | child : List (JStr × JSValue) → ScopeRec → ScopeRec

/-- The own property key `$$root`. -/
def rootKey : JStr := [ '$', '$', 'r', 'o', 'o', 't' ]

/-- The own property key `$$widgets`. -/
def widgetsKey : JStr := [ '$', '$', 'w', 'i', 'd', 'g', 'e', 't', 's' ]

/-- The own property key `$$parent`. -/
def parentKey : JStr := [ '$', '$', 'p', 'a', 'r', 'e', 'n', 't' ]

/-- Embedding of `lighter.scope(element)` without a parent: the `Scope`
constructor installs `$$root` (the bound element, here a numeric element
identity) and `$$widgets` (an array, opaque here) as own properties. -/
def mkRootScope (el : Nat) : ScopeRec :=
  .root [ (rootKey, .num (Int.ofNat el)), (widgetsKey, .obj []) ]

/-- Embedding of `lighter.scope(element, parent)`: `Object.create(parent)`
links the prototype, then `$$parent` (the parent object, structural here),
`$$root` and `$$widgets` are installed as own properties, in assignment
order. -/
def mkChildScope (parent : ScopeRec) (el : Nat) : ScopeRec :=
  .child [ (parentKey, .obj []), (rootKey, .num (Int.ofNat el)),
    (widgetsKey, .obj []) ] parent

/-- Own properties of a scope object. -/
def scopeOwn : ScopeRec → List (JStr × JSValue)
  | .root own => own
  | .child own _ => own

/-- Prototype parent of a scope object, when created with one. -/
def scopeParent : ScopeRec → Option ScopeRec
  | .root _ => none
  | .child _ p => some p

/-- JavaScript property read on a scope: own properties first, then the
prototype chain, `undefined` at the end of the chain. -/
def scopeRead : ScopeRec → JStr → JSValue
  | .root own, k => (fieldsGet own k).getD .undef
  | .child own parent, k =>
    match fieldsGet own k with
    | some v => v
    | none => scopeRead parent k

/-- JavaScript property assignment on a scope: always creates or updates
an own property of the receiver, never touching the prototype. -/
def scopeWrite : ScopeRec → JStr → JSValue → ScopeRec
  | .root own, k, v => .root (fieldsSet own k v)
  | .child own parent, k, v => .child (fieldsSet own k v) parent

/-- C8: for every parent scope, every child scope forked from it and every
key not among the child's constructor-installed own properties, reading
the key on the child yields the parent's current value; and writing any
value on the child shadows the key while leaving the parent object —
hence every value readable from it — unchanged. -/
theorem C8_scope_chain (p : ScopeRec) (el : Nat) (k : JStr) (v : JSValue)
    (h : fieldsGet (scopeOwn (mkChildScope p el)) k = none) :
    scopeRead (mkChildScope p el) k = scopeRead p k ∧
    scopeParent (scopeWrite (mkChildScope p el) k v) = some p ∧
    scopeRead (scopeWrite (mkChildScope p el) k v) k = v := by
  refine ⟨?_, rfl, ?_⟩
  · simp only [mkChildScope, scopeOwn] at h
    simp only [mkChildScope, scopeRead, h]
  · simp only [mkChildScope, scopeWrite, scopeRead, fieldsGet_fieldsSet]

/-- Witness for C8: a parent holding `x = 3`, a child forked from it;
the child reads `3` through the chain, and writing `4` on the child
keeps the parent intact while the child reads back `4`. -/
theorem C8_scope_chain_witness :
    scopeRead (mkChildScope (scopeWrite (mkRootScope 0) [ 'x' ] (.num 3)) 1)
      [ 'x' ] = .num 3 ∧
    scopeParent (scopeWrite
      (mkChildScope (scopeWrite (mkRootScope 0) [ 'x' ] (.num 3)) 1)
      [ 'x' ] (.num 4)) = some (scopeWrite (mkRootScope 0) [ 'x' ] (.num 3)) ∧
    scopeRead (scopeWrite
      (mkChildScope (scopeWrite (mkRootScope 0) [ 'x' ] (.num 3)) 1)
      [ 'x' ] (.num 4)) [ 'x' ] = .num 4 :=
  ⟨((C8_scope_chain (scopeWrite (mkRootScope 0) [ 'x' ] (.num 3)) 1
      [ 'x' ] (.num 4) rfl).1).trans rfl,
   (C8_scope_chain (scopeWrite (mkRootScope 0) [ 'x' ] (.num 3)) 1
      [ 'x' ] (.num 4) rfl).2.1,
   (C8_scope_chain (scopeWrite (mkRootScope 0) [ 'x' ] (.num 3)) 1
      [ 'x' ] (.num 4) rfl).2.2⟩

/-! ### lighter.DOMCompiler -/

/-- A DOM node for the markup normalizer: a text node or an element with a
tag name, attributes and child nodes. -/
inductive DNode : Type where
  | text : JStr → DNode
  | elem : JStr → List (JStr × JStr) → List DNode → DNode
deriving Repr

/-- Greedy contiguous sequence of deeper-level segments, as matched inside
the regex `EXPRESSION_MARKUP = \{\{(GETTER_EXPRESSION)\}\}`: returns the
consumed characters and the remaining string.  No backtracking is needed:
a dropped segment would leave the scan position on `.` or `[`, never on
the `}` the enclosing regex requires next. -/
def takeSegsF : Nat → JStr → JStr × JStr
  | 0, s => ([], s)
  | f + 1, s =>
    match s with
    | '.' :: r =>
      let name := r.takeWhile firstLevelChar
      if name = [] then ([], s)
      else
        let step := takeSegsF f (r.drop name.length)
        ('.' :: name ++ step.1, step.2)
    | '[' :: r =>
      let inner := r.takeWhile bracketChar
      match r.drop inner.length with
      | ']' :: after =>
        if inner = [] then ([], s)
        else
          let step := takeSegsF f after
          ('[' :: inner ++ ']' :: step.1, step.2)
      | _ => ([], s)
    | _ => ([], s)

/-- Attempts to match `EXPRESSION_MARKUP` at the start of the string:
`{{`, a first-level run, greedy deeper segments, `}}`.  Returns the match
length and the captured expression. -/
def tryMarkupAt (s : JStr) : Option (Nat × JStr) :=
  match s with
  | '{' :: '{' :: r =>
    let fst := r.takeWhile firstLevelChar
    if fst = [] then none
    else
      let step := takeSegsF r.length (r.drop fst.length)
      match step.2 with
      | '}' :: '}' :: _ =>
        some (2 + fst.length + step.1.length + 2, fst ++ step.1)
      | _ => none
  | _ => none

/-- First match of the unanchored `EXPRESSION_MARKUP` in a string: the
scan tries each position from the left.  Returns the match index, its
length and the captured expression. -/
def findMarkupF : Nat → Nat → JStr → Option (Nat × Nat × JStr)
  | 0, _, _ => none
  | f + 1, i, s =>
    match tryMarkupAt s with
    | some (len, exp) => some (i, len, exp)
    | none =>
      match s with
      | [] => none
      | _ :: rest => findMarkupF f (i + 1) rest

/-- Entry point of the markup search with its canonical fuel. -/
def findMarkup (s : JStr) : Option (Nat × Nat × JStr) :=
  findMarkupF (s.length + 1) 0 s

/-- The tag name `span` of the synthetic bind element. -/
def spanTag : JStr := [ 's', 'p', 'a', 'n' ]

/-- The attribute name `lt:bind` of the synthetic bind element. -/
def bindAttr : JStr := [ 'l', 't', ':', 'b', 'i', 'n', 'd' ]

/-- Fueled embedding of `lighter.DOMCompiler.compileTextNode`, expressed
as the sibling list replacing the original text node: the clipped
non-empty leading text (the node is removed when it becomes empty), the
inserted `span[lt:bind]` element, and the recursively compiled non-empty
suffix text.  The suffix is strictly shorter than the input, so a fuel of
`s.length` suffices. -/
def compileTextF : Nat → JStr → List DNode
  | 0, d => [ .text d ]
  | f + 1, d =>
    match findMarkup d with
    | none => [ .text d ]
    | some (idx, len, exp) =>
      let pre := d.take idx
      let suf := d.drop (idx + len)
      (if pre = [] then [] else [ .text pre ]) ++
      [ .elem spanTag [ (bindAttr, exp) ] [] ] ++
      (if suf = [] then [] else compileTextF f suf)

/-- Embedding of `lighter.DOMCompiler.compileTextNode` with its canonical
fuel. -/
def compileTextNode (d : JStr) : List DNode :=
  compileTextF d.length d

mutual

/-- Effect of `lighter.DOMCompiler.compileDOM` on a single node: a text
node is replaced by its compiled sibling list; an element keeps its tag
and attributes and has its descendant text nodes compiled (the `//text()`
snapshot covers every text node of the subtree). -/
def normalizeNode : DNode → List DNode
  | .text d => compileTextNode d
  | .elem t a c => [ .elem t a (normalizeList c) ]

/-- Effect of `lighter.DOMCompiler.compileDOM` on a sibling list. -/
def normalizeList : List DNode → List DNode
  | [] => []
  | n :: rest => normalizeNode n ++ normalizeList rest

end

/-- C9: the markup normalizer turns the text node `"A {{x}} B {{y}} C"`
into exactly five siblings — text `"A "`, a bind element for `x`, text
`" B "`, a bind element for `y`, text `" C"` — in order; running the
normalizer again on this output changes nothing; and a text node whose
remaining content is empty (`"{{x}}"`) is removed rather than kept. -/
theorem C9_normalizer_five_siblings_idempotent :
    normalizeList
      [ .text [ 'A', ' ', '{', '{', 'x', '}', '}', ' ', 'B', ' ',
          '{', '{', 'y', '}', '}', ' ', 'C' ] ] =
      [ .text [ 'A', ' ' ], .elem spanTag [ (bindAttr, [ 'x' ]) ] [],
        .text [ ' ', 'B', ' ' ], .elem spanTag [ (bindAttr, [ 'y' ]) ] [],
        .text [ ' ', 'C' ] ] ∧
    normalizeList
      [ .text [ 'A', ' ' ], .elem spanTag [ (bindAttr, [ 'x' ]) ] [],
        .text [ ' ', 'B', ' ' ], .elem spanTag [ (bindAttr, [ 'y' ]) ] [],
        .text [ ' ', 'C' ] ] =
      [ .text [ 'A', ' ' ], .elem spanTag [ (bindAttr, [ 'x' ]) ] [],
        .text [ ' ', 'B', ' ' ], .elem spanTag [ (bindAttr, [ 'y' ]) ] [],
        .text [ ' ', 'C' ] ] ∧
    normalizeList [ .text [ '{', '{', 'x', '}', '}' ] ] =
      [ .elem spanTag [ (bindAttr, [ 'x' ]) ] [] ] :=
  ⟨rfl, rfl, rfl⟩

/-! ### lighter.liveWidgetPlaceholdersInDOM_ (widget matching and traversal) -/

/-- A registered widget definition (`lighter.widget`): identity of its
factory, trigger kind (`@`-prefixed names are attribute-triggered),
trigger name and container flag.  The derived selector is a tag-name
match for element triggers and an attribute-presence match (`[name]`)
for attribute triggers. -/
structure WDef : Type where
  fid : Nat
  isAttr : Bool
  name : JStr
  isContainer : Bool
deriving Repr, DecidableEq

/-- An element of the live DOM subtree being bound: identity, tag name,
attributes, child elements (the traversal only visits element nodes). -/
inductive TElem : Type where
  | mk : Nat → JStr → List (JStr × JStr) → List TElem → TElem
deriving Repr

/-- Element identity. -/
def TElem.id : TElem → Nat
  | .mk i _ _ _ => i

/-- The `matchesSelector` test for the selector derived from a widget
definition. -/
def defMatches (e : TElem) (d : WDef) : Bool :=
  match e with
  | .mk _ t a _ =>
    if d.isAttr then a.any fun kv => kv.1 = d.name else t = d.name

/-- The `definitions.forEach` of `processElement`, with the mutable
`matched` / `is_container` flags and the factory-invocation log made
explicit state: every matching definition's factory is invoked
(`(element id, factory id)` appended), and each match overwrites the
container flag. -/
def scanDefs (e : TElem) (defs : List WDef) (matched contFlag : Bool)
    (log : List (Nat × Nat)) : Bool × Bool × List (Nat × Nat) :=
  match defs with
  | [] => (matched, contFlag, log)
  | d :: rest =>
    if defMatches e d then
      scanDefs e rest true d.isContainer (log ++ [ (e.id, d.fid) ])
    else scanDefs e rest matched contFlag log

mutual

/-- `processElement` of `lighter.liveWidgetPlaceholdersInDOM_`: run every
definition's selector against the element (invoking each matching
factory), then visit the children unless a definition matched and the
container flag—set by the last match—is on.  The result is the ordered
log of factory invocations. -/
def processElement (defs : List WDef) : TElem → List (Nat × Nat)
  | .mk i t a c =>
    let scan := scanDefs (.mk i t a c) defs false false []
    scan.2.2 ++
      (if scan.1 = false ∨ scan.2.1 = false then processChildren defs c else [])

/-- `processChildren` of `lighter.liveWidgetPlaceholdersInDOM_`,
restricted to element nodes (non-element nodes are skipped by the
`nodeType` check). -/
def processChildren (defs : List WDef) : List TElem → List (Nat × Nat)
  | [] => []
  | e :: rest => processElement defs e ++ processChildren defs rest

end

/-- Container flag after testing all definitions: that of the last
matching definition, or the initial flag when none match. -/
def lastMatchFlag (e : TElem) (defs : List WDef) : Bool :=
  (defs.filter (defMatches e)).foldl (fun _ d => d.isContainer) false

lemma scanDefs_spec (e : TElem) (defs : List WDef) :
    ∀ (matched contFlag : Bool) (log : List (Nat × Nat)),
    scanDefs e defs matched contFlag log =
      (matched || defs.any (defMatches e),
       (defs.filter (defMatches e)).foldl (fun _ d => d.isContainer) contFlag,
       log ++ (defs.filter (defMatches e)).map fun d => (e.id, d.fid)) := by
  induction defs with
  | nil => intro matched contFlag log; simp [scanDefs]
  | cons d rest ih =>
    intro matched contFlag log
    by_cases hm : defMatches e d = true
    · simp [scanDefs, hm, ih, List.filter_cons, List.any_cons]
    · simp only [Bool.not_eq_true] at hm
      simp [scanDefs, hm, ih, List.filter_cons, List.any_cons]

/-- C2 counterexample: with two registered attribute definitions — the
first container-flagged — both matching one element, the element's log
shows both factories invoked (the claim says later matching definitions
are not applied), and the traversal still descends into the children
(the claim says a container match prevents descent): the container flag
is overwritten by the last match. -/
theorem C2_traversal_counterexample :
    processElement
      [ ⟨0, true, [ 'a' ], true⟩, ⟨1, true, [ 'b' ], false⟩ ]
      (.mk 5 [ 'd' ] [ ([ 'a' ], [] ), ([ 'b' ], [] ) ]
        [ .mk 6 [ 'd' ] [ ([ 'a' ], [] ) ] [] ]) =
      [ (5, 0), (5, 1), (6, 0) ] ∧
    ([ (5, 0), (5, 1), (6, 0) ] : List (Nat × Nat)) ≠ [ (5, 0) ] :=
  ⟨rfl, by decide⟩

/-- C2 amended: at every element the registered definitions are tested in
registration order and every matching definition's factory is invoked (not
only the first); the element counts as a container exactly when the last
matching definition is container-flagged, and the traversal descends into
the children exactly when no definition matched or that last match is not
container-flagged. -/
theorem C2_traversal_all_matches (defs : List WDef) (i : Nat) (t : JStr)
    (a : List (JStr × JStr)) (c : List TElem) :
    processElement defs (.mk i t a c) =
      ((defs.filter (defMatches (.mk i t a c))).map fun d =>
        ((TElem.mk i t a c).id, d.fid)) ++
      (if defs.any (defMatches (.mk i t a c)) &&
          lastMatchFlag (.mk i t a c) defs then []
       else processChildren defs c) := by
  simp only [processElement, scanDefs_spec, Bool.false_or, List.nil_append,
    lastMatchFlag]
  by_cases hany : defs.any (defMatches (.mk i t a c)) = true
  · by_cases hflag : (defs.filter (defMatches (.mk i t a c))).foldl
        (fun _ d => d.isContainer) false = true
    · simp [hany, hflag]
    · simp only [Bool.not_eq_true] at hflag
      simp [hany, hflag]
  · simp only [Bool.not_eq_true] at hany
    simp [hany]

/-! ### lighter.RepeaterAttributeWidget -/

/-- An entry of the repeater's source array: `none` models an index whose
value is `undefined`. -/
abbrev RItem := Option Nat

/-- A slot of the repeater's reconciliation state array: never populated
(`undefined`), explicitly tombstoned (`null`), or a recorded
`[item, repeater_scope]` pair (item identity and scope/element identity,
the clone and its scope being created together). -/
inductive RSlot : Type where
  | undef : RSlot
  | tomb : RSlot
  | pair : RItem → Nat → RSlot
deriving Repr, DecidableEq

/-- State of one repeater widget: the container's child element
identities, the `state` slot array, the last observed source reference
(`this.items_`; `none` models a falsy/absent source) and a fresh-identity
counter for newly cloned elements and forked scopes. -/
structure RepState : Type where
  children : List Nat
  slots : List RSlot
  lastItems : Option Nat
  fresh : Nat
deriving Repr, DecidableEq

/-- JavaScript array assignment `state[i] = v`, padding holes with
`undefined` when `i` is beyond the current length. -/
def listSet : List RSlot → Nat → RSlot → List RSlot
  | [], 0, v => [ v ]
  | _ :: rest, 0, v => v :: rest
  | [], n + 1, v => .undef :: listSet [] n v
  | x :: rest, n + 1, v => x :: listSet rest n v

/-- `container.insertBefore(el, container.childNodes[i])`: inserts at
position `i`; when `i` is beyond the end, `childNodes[i]` is `undefined`,
treated as `null`, and the element is appended. -/
def insertAt (l : List Nat) (i : Nat) (x : Nat) : List Nat :=
  l.take i ++ x :: l.drop i

/-- `state[i]` on the slot array (`undefined` beyond the length). -/
def slotAt (slots : List RSlot) (i : Nat) : RSlot :=
  slots.getD i (.undef)

/-- The slot array built by `init_`'s `forEach`: slot `i` is
`[item, scope]` with the `i`-th fresh identity. -/
def slotsInit (freshStart : Nat) : Nat → List RItem → List RSlot
  | _, [] => []
  | idx, it :: rest => .pair it (freshStart + idx) :: slotsInit freshStart (idx + 1) rest

/-- The container children appended by `init_`'s `forEach`: one cloned
element per item, identities in creation order. -/
def childrenInit (freshStart : Nat) : Nat → List RItem → List Nat
  | _, [] => []
  | idx, _ :: rest => (freshStart + idx) :: childrenInit freshStart (idx + 1) rest

/-- Embedding of `RepeaterAttributeWidget.prototype.init_`: clear the
container, then—when the source is present—clone the template, fork a
scope and append one child per item, recording each slot; `this.items_`
becomes the observed source reference either way. -/
def initRep (freshStart : Nat) (ref : Option Nat) (contents : List RItem) :
    RepState :=
  match ref with
  | none => ⟨[], [], none, freshStart⟩
  | some r =>
    ⟨childrenInit freshStart 0 contents, slotsInit freshStart 0 contents,
     some r, freshStart + contents.length⟩

/-- Mutable state of `update`'s reconciliation loop: container children,
slot array, fresh-identity counter, ordered log of child scopes whose
`$update()` ran, and the `changed` flag. -/
structure LoopSt : Type where
  children : List Nat
  slots : List RSlot
  fresh : Nat
  log : List Nat
  changed : Bool
deriving Repr, DecidableEq

/-- The `for (i = 0; i < items.length; ++i)` reconciliation loop of
`RepeaterAttributeWidget.prototype.update`.  `insertItem(i)` inserts the
new clone before `childNodes[i + 1]`; `removeItem(i)` removes
`childNodes[i]` (a `TypeError` — modelled as `error` — when that child
does not exist, as `removeChild(undefined)` throws); reading `ref[0]` of
a tombstoned (`null`) slot with a present item also throws. -/
def updLoop : List RItem → Nat → LoopSt → Except Unit LoopSt
  | [], _, st => .ok st
  | item :: todo, i, st =>
    match slotAt st.slots i with
    | .undef =>
      match item with
      | none => updLoop todo (i + 1) st
      | some _ =>
        updLoop todo (i + 1)
          ⟨insertAt st.children (i + 1) st.fresh,
           listSet st.slots i (.pair item st.fresh),
           st.fresh + 1, st.log, true⟩
    | .tomb =>
      match item with
      | none => updLoop todo (i + 1) st
      | some _ => .error ()
    | .pair it sc =>
      match item with
      | none =>
        if i < st.children.length then
          updLoop todo (i + 1)
            ⟨st.children.eraseIdx i, listSet st.slots i .tomb, st.fresh,
             st.log, true⟩
        else .error ()
      | some _ =>
        if it ≠ item then
          if i < st.children.length then
            updLoop todo (i + 1)
              ⟨insertAt (st.children.eraseIdx i) (i + 1) st.fresh,
               listSet st.slots i (.pair item st.fresh),
               st.fresh + 1, st.log, true⟩
          else .error ()
        else
          updLoop todo (i + 1)
            ⟨st.children, st.slots, st.fresh, st.log ++ [ sc ], st.changed⟩

/-- Embedding of `RepeaterAttributeWidget.prototype.update`: `cur` is the
current source reference read off the scope and `contents` its items.  If
the reference differs from `this.items_`, `init_` is re-run and a
`change` event fires; otherwise a falsy source is a no-op; otherwise the
reconciliation loop runs and `change` fires exactly when it flagged a
structural change.  Returns the new state, the ordered child-scope
`$update()` log, and whether a `change` event was dispatched. -/
def updateRep (st : RepState) (cur : Option Nat) (contents : List RItem) :
    Except Unit (RepState × List Nat × Bool) :=
  if cur ≠ st.lastItems then
    .ok (initRep st.fresh cur contents, [], true)
  else if cur = none then .ok (st, [], false)
  else
    match updLoop contents 0 ⟨st.children, st.slots, st.fresh, [], false⟩ with
    | .ok l => .ok (⟨l.children, l.slots, st.lastItems, l.fresh⟩, l.log, l.changed)
    | .error e => .error e

/-- Ordered log of the child-scope identities `sid i, sid (i+1), ...`
whose `$update()` the reconciliation loop invokes over `m` kept slots. -/
def scopeLog (sid : Nat → Nat) : Nat → Nat → List Nat
  | _, 0 => []
  | i, m + 1 => sid i :: scopeLog sid (i + 1) m

lemma slotsInit_slotAt :
    ∀ (contents : List RItem) (f idx j : Nat), j < contents.length →
    slotAt (slotsInit f idx contents) j =
      .pair (contents.getD j none) (f + idx + j) := by
  intro contents
  induction contents with
  | nil => intro f idx j h; exact absurd h (by simp)
  | cons it rest ih =>
    intro f idx j h
    cases j with
    | zero => simp [slotsInit, slotAt]
    | succ j =>
      have := ih f (idx + 1) j (by simpa using Nat.lt_of_succ_lt_succ h)
      simp only [slotsInit, slotAt, List.getD_cons_succ] at this ⊢
      rw [this]
      ring_nf

lemma mapSome_getD : ∀ (l : List Nat) (k : Nat), k < l.length →
    (l.map some).getD k none = some (l.getD k 0) := by
  intro l
  induction l with
  | nil => intro k h; exact absurd h (by simp)
  | cons x rest ih =>
    intro k h
    cases k with
    | zero => simp
    | succ k => simpa using ih k (by simpa using Nat.lt_of_succ_lt_succ h)

lemma take_getD : ∀ (l : List Nat) (m k : Nat), k < m →
    (l.take m).getD k 0 = l.getD k 0 := by
  intro l
  induction l with
  | nil => intro m k _; simp
  | cons x rest ih =>
    intro m k h
    cases m with
    | zero => exact absurd h (by simp)
    | succ m =>
      cases k with
      | zero => simp
      | succ k => simpa using ih m k (Nat.lt_of_succ_lt_succ h)

lemma updLoop_unchanged (sid : Nat → Nat) :
    ∀ (todo : List Nat) (i : Nat) (st : LoopSt),
    (∀ k, k < todo.length →
      slotAt st.slots (i + k) = .pair (some (todo.getD k 0)) (sid (i + k))) →
    updLoop (todo.map some) i st =
      .ok ⟨st.children, st.slots, st.fresh,
        st.log ++ scopeLog sid i todo.length, st.changed⟩ := by
  intro todo
  induction todo with
  | nil => intro i st _; simp [updLoop, scopeLog]
  | cons x rest ih =>
    intro i st hslot
    have h0 := hslot 0 (by simp)
    simp only [Nat.add_zero, List.getD_cons_zero] at h0
    rw [List.map_cons, updLoop, h0]
    simp only [ne_eq, not_true_eq_false, if_false, reduceIte]
    have hrec := ih (i + 1)
      ⟨st.children, st.slots, st.fresh, st.log ++ [ sid i ], st.changed⟩
      (by
        intro k hk
        have harr : i + (k + 1) = i + 1 + k := by omega
        have := hslot (k + 1) (by simpa using Nat.succ_lt_succ hk)
        rw [harr] at this
        simpa [List.getD_cons_succ] using this)
    rw [hrec]
    simp [scopeLog, List.append_assoc, List.length_cons]

/-- C1: evaluation of the repeater at the failing input.  With element
identities 0,1,2 bound to source `[a,b,c]` (items 10,11,12) and the array
mutated in place to `[a,d,c]` (items 10,13,12), `update()` removes the
child at index 1 and calls `$update()` on the kept scopes 0 and 2, but
the replacement element (identity 3) is inserted before `childNodes[2]`
of the shrunken list, so the children end up `[0, 2, 3]` — the new
element at index 2 and the formerly-index-2 element shifted to index 1 —
not `[0, 3, 2]` as the claim (replacement at index 1, index 2 untouched)
requires. -/
theorem C1_repeater_inplace_replacement :
    updateRep (initRep 0 (some 7) [ some 10, some 11, some 12 ]) (some 7)
      [ some 10, some 13, some 12 ] =
      .ok (⟨[ 0, 2, 3 ],
        [ .pair (some 10) 0, .pair (some 13) 3, .pair (some 12) 2 ],
        some 7, 4⟩, [ 0, 2 ], true) ∧
    ([ 0, 2, 3 ] : List Nat) ≠ [ 0, 3, 2 ] :=
  ⟨rfl, by decide⟩

/-- C6: when the observed source reference differs from the last observed
one — in particular for a new array of content equal to the old — the
repeater's `update()` re-runs `init_` (the container is cleared and
re-populated with freshly created children), emits a `change` event and
performs no positional diffing (no child scope's `$update()` runs); when
the reference is unchanged and the source is falsy, `update()` is a
no-op. -/
theorem C6_repeater_ref_change_rebuild (st : RepState) (cur : Option Nat)
    (contents : List RItem) :
    (cur ≠ st.lastItems →
      updateRep st cur contents = .ok (initRep st.fresh cur contents, [], true)) ∧
    (st.lastItems = none →
      updateRep st none contents = .ok (st, [], false)) := by
  constructor
  · intro h
    simp [updateRep, h]
  · intro h
    have h2 : ¬ ((none : Option Nat) ≠ st.lastItems) := by simp [h]
    simp [updateRep, h2]

/-- Witness for C6: a repeater over one item rebuilt from a new array
reference with identical content produces a fresh child element (identity
1 replacing 0) with a `change` event, and an unchanged falsy source is a
no-op. -/
theorem C6_repeater_ref_change_rebuild_witness :
    updateRep (initRep 0 (some 1) [ some 5 ]) (some 2) [ some 5 ] =
      .ok (⟨[ 1 ], [ .pair (some 5) 1 ], some 2, 2⟩, [], true) ∧
    updateRep (⟨[], [], none, 0⟩ : RepState) none [] =
      .ok (⟨[], [], none, 0⟩, [], false) :=
  ⟨((C6_repeater_ref_change_rebuild (initRep 0 (some 1) [ some 5 ]) (some 2)
      [ some 5 ]).1 (by decide)).trans rfl,
   (C6_repeater_ref_change_rebuild ⟨[], [], none, 0⟩ none []).2 rfl⟩

/-- C10: when the source array keeps its reference but its length shrank
in place to `m`, `update()` iterates only over indices `0..m-1`, calling
`$update()` on exactly those child scopes: the state — recorded slots,
container children and fresh counter — is returned entirely unchanged
(slots and children at indices `≥ m` are neither removed nor tombstoned)
and no `change` event is emitted. -/
theorem C10_repeater_shrink (f r m : Nat) (items : List Nat)
    (h : m ≤ items.length) :
    updateRep (initRep f (some r) (items.map some)) (some r)
      ((items.take m).map some) =
      .ok (initRep f (some r) (items.map some),
        scopeLog (fun j => f + j) 0 m, false) := by
  have hloop := updLoop_unchanged (fun j => f + j) (items.take m) 0
    ⟨childrenInit f 0 (items.map some), slotsInit f 0 (items.map some),
     f + (items.map some).length, [], false⟩
    (by
      intro k hk
      have hkm : k < m := by
        have := hk
        rw [List.length_take] at this
        omega
      have hki : k < items.length := lt_of_lt_of_le hkm h
      have hs := slotsInit_slotAt (items.map some) f 0 k (by simpa using hki)
      simp only [slotAt] at hs ⊢
      rw [Nat.zero_add, hs, mapSome_getD items k hki, take_getD items m k hkm]
      simp)
  have hlen : (items.take m).length = m := by
    rw [List.length_take]
    omega
  rw [hlen] at hloop
  simp only [List.map_take, List.length_map] at hloop
  simp [updateRep, initRep, hloop]

/-- Witness for C10: a three-item repeater whose source shrank in place to
its first two items updates scopes 0 and 1 only, keeps all three children
and slots, and fires no `change` event. -/
theorem C10_repeater_shrink_witness :
    updateRep (initRep 0 (some 1) [ some 4, some 5, some 6 ]) (some 1)
      [ some 4, some 5 ] =
      .ok (⟨[ 0, 1, 2 ],
        [ .pair (some 4) 0, .pair (some 5) 1, .pair (some 6) 2 ],
        some 1, 3⟩, [ 0, 1 ], false) :=
  (C10_repeater_shrink 0 1 2 [ 4, 5, 6 ] (by decide)).trans rfl
